import Mathlib

/-!
# Verification of `total.py` (simstock line counter)

This file gives a shallow embedding of the script `total.py`:

```python
directory_path = './'
file_extensions = ('.js', '.html', '.css', '.py')
exclude_folders = {'node_modules'}

total_lines = 0

for root, dirs, files in os.walk(directory_path, topdown=True):
    dirs[:] = [d for d in dirs if d not in exclude_folders]
    for file in files:
        if file.endswith(file_extensions):
            file_path = os.path.join(root, file)
            try:
                with open(file_path, 'r', encoding="utf-8") as f:
                    file_lines = f.readlines()
                    total_lines += len(file_lines)
                    print(f"Contents of {file_path}:")
                    for line in file_lines:
                        print(line, end='')
                    print("\n" + "-" * 50 + "\n")
            except UnicodeDecodeError as e:
                print(f"Error reading {file_path}: {e}")

print(f"Total lines: {total_lines}")
```

The file system beneath the current working directory is modelled as a
tree (`DirTree`): each directory holds a list of files (name plus byte
content, or a marker for a file whose open/read raises an OS error) and
a list of named subdirectories.  `os.walk` is modelled by `osWalk`,
which yields, in depth-first top-down order, one entry per visited
directory: its joined path, its pruned subdirectory-name list, and its
files.  The loop body is modelled by `runFilesLoop` / `runEntries`,
which thread the accumulator `total_lines` and the standard output
(a list of Unicode code points) through the run; a non-decode error
aborts the run (`Except.error` carrying the output printed so far),
mirroring the uncaught exception.  Strict UTF-8 decoding is modelled by
`utf8Decode`, universal-newline translation by `univNewlines`, and
`readlines` by `splitLines`.
-/

/-- The code points of a string literal (stdout is modelled as a list of
Unicode code points). -/
def strCP (s : String) : List Nat :=
  s.data.map Char.toNat

/-- Decimal rendering of a natural number as code points, as an f-string
interpolation of an `int` produces. -/
def natDigitsAux : Nat → Nat → List Nat
  | 0, _ => []
  | fuel + 1, n => if n < 10 then [48 + n] else natDigitsAux fuel (n / 10) ++ [48 + n % 10]

/-- Decimal code points of `n`. -/
def natCP (n : Nat) : List Nat :=
  natDigitsAux (n + 1) n

/-- Is `b` a UTF-8 continuation byte (`0x80..0xBF`)? -/
def isCont (b : Nat) : Bool :=
  128 ≤ b && b ≤ 191

/-- Strict UTF-8 decoding of a byte sequence into code points, as performed
by the runtime for `open(file_path, 'r', encoding="utf-8")` followed by a
full read: it rejects invalid start bytes, truncated sequences, invalid
continuation bytes, overlong encodings, surrogates and code points above
`0x10FFFF`, returning `none` exactly when the runtime raises
`UnicodeDecodeError`. -/
def utf8Decode : List Nat → Option (List Nat)
  | [] => some []
  | b :: rest =>
    if b ≤ 127 then
      (utf8Decode rest).map (fun cps => b :: cps)
    else if 194 ≤ b && b ≤ 223 then
      match rest with
      | c1 :: rest2 =>
        if isCont c1 then
          (utf8Decode rest2).map (fun cps => ((b - 192) * 64 + (c1 - 128)) :: cps)
        else none
      | [] => none
    else if b == 224 then
      match rest with
      | c1 :: c2 :: rest2 =>
        if (160 ≤ c1 && c1 ≤ 191) && isCont c2 then
          (utf8Decode rest2).map (fun cps => ((b - 224) * 4096 + (c1 - 128) * 64 + (c2 - 128)) :: cps)
        else none
      | _ => none
    else if (225 ≤ b && b ≤ 236) || b == 238 || b == 239 then
      match rest with
      | c1 :: c2 :: rest2 =>
        if isCont c1 && isCont c2 then
          (utf8Decode rest2).map (fun cps => ((b - 224) * 4096 + (c1 - 128) * 64 + (c2 - 128)) :: cps)
        else none
      | _ => none
    else if b == 237 then
      match rest with
      | c1 :: c2 :: rest2 =>
        if (128 ≤ c1 && c1 ≤ 159) && isCont c2 then
          (utf8Decode rest2).map (fun cps => ((b - 224) * 4096 + (c1 - 128) * 64 + (c2 - 128)) :: cps)
        else none
      | _ => none
    else if b == 240 then
      match rest with
      | c1 :: c2 :: c3 :: rest2 =>
        if (144 ≤ c1 && c1 ≤ 191) && isCont c2 && isCont c3 then
          (utf8Decode rest2).map
            (fun cps => ((b - 240) * 262144 + (c1 - 128) * 4096 + (c2 - 128) * 64 + (c3 - 128)) :: cps)
        else none
      | _ => none
    else if 241 ≤ b && b ≤ 243 then
      match rest with
      | c1 :: c2 :: c3 :: rest2 =>
        if isCont c1 && isCont c2 && isCont c3 then
          (utf8Decode rest2).map
            (fun cps => ((b - 240) * 262144 + (c1 - 128) * 4096 + (c2 - 128) * 64 + (c3 - 128)) :: cps)
        else none
      | _ => none
    else if b == 244 then
      match rest with
      | c1 :: c2 :: c3 :: rest2 =>
        if (128 ≤ c1 && c1 ≤ 143) && isCont c2 && isCont c3 then
          (utf8Decode rest2).map
            (fun cps => ((b - 240) * 262144 + (c1 - 128) * 4096 + (c2 - 128) * 64 + (c3 - 128)) :: cps)
        else none
      | _ => none
    else none

/-- Universal-newline translation, applied by text-mode reading with the
default `newline=None`: `\r\n` and lone `\r` both become `\n` (code point
`10`). -/
def univNewlines : List Nat → List Nat
  | [] => []
  | 13 :: 10 :: rest => 10 :: univNewlines rest
  | 13 :: rest => 10 :: univNewlines rest
  | c :: rest => c :: univNewlines rest

/-- Helper for `splitLines`: `acc` holds the current line, reversed. -/
def splitLinesAux : List Nat → List Nat → List (List Nat)
  | acc, [] => if acc.isEmpty then [] else [acc.reverse]
  | acc, c :: rest =>
    if c == 10 then (acc.reverse ++ [10]) :: splitLinesAux [] rest
    else splitLinesAux (c :: acc) rest

/-- Model of `f.readlines()` on already newline-translated text: split at `\n`,
keeping the `\n` at the end of each line; the final line may lack one;
an empty text yields no lines. -/
def splitLines (cs : List Nat) : List (List Nat) :=
  splitLinesAux [] cs

/-- Content of one file in the modelled file system: its raw bytes, or a
marker for a file whose `open`/read raises a non-decode OS error
(permission denied, vanished file, ...). -/
inductive FContent : Type where
  | bytes : List Nat → FContent
  | osError : FContent
deriving DecidableEq, Repr

/-- A directory entry that is a regular file. -/
structure FileEnt : Type where
  name : String
  content : FContent
deriving DecidableEq, Repr

mutual
/-- A directory: its files and its named subdirectories, each list in the
enumeration order the file system yields. -/
inductive DirTree : Type where
  | node : List FileEnt → List SubDir → DirTree
/-- A named subdirectory. -/
inductive SubDir : Type where
  | sub : String → DirTree → SubDir
end

/-- Name of a subdirectory. -/
def subName : SubDir → String
  | .sub d _ => d

/-- Tree of a subdirectory. -/
def subTree : SubDir → DirTree
  | .sub _ t => t

/-- Constant `directory_path = './'` from the source. -/
def directory_path : String := "./"

/-- Constant `file_extensions = ('.js', '.html', '.css', '.py')` from the source. -/
def file_extensions : List String := [".js", ".html", ".css", ".py"]

/-- Constant `exclude_folders` from the source: the single name `node_modules`. -/
def exclude_folders : List String := ["node_modules"]

/-- Model of `s.endswith(suf)` for a single suffix: exact, case-sensitive suffix
match on the characters. -/
def endswith (s suf : String) : Bool :=
  decide (suf.data <:+ s.data)

/-- Model of `file.endswith(file_extensions)`: the tuple form of `endswith` is true
iff some listed suffix matches. -/
def hasSelectedExt (name : String) : Bool :=
  file_extensions.any (fun e => endswith name e)

/-- Does the string end with the path separator `'/'`? -/
def endsWithSep (s : String) : Bool :=
  match s.data.getLast? with
  | some c => c == '/'
  | none => false

/-- Model of `os.path.join(root, name)` for the shapes arising here (relative
`name`): append a `'/'` separator unless `root` already ends with one. -/
def pathJoin (root name : String) : String :=
  if endsWithSep root then root ++ name else root ++ "/" ++ name

/-- One triple yielded by `os.walk`: the joined directory path, the pruned
subdirectory-name list (after the `dirs[:] = ...` assignment), and the
directory's files. -/
structure WalkEntry : Type where
  root : String
  dirs : List String
  files : List FileEnt
deriving DecidableEq, Repr

/-- The pruned subdirectory-name list:
`dirs[:] = [d for d in dirs if d not in exclude_folders]`. -/
def keptNames (subs : List SubDir) : List String :=
  (subs.map subName).filter (fun d => !(decide (d ∈ exclude_folders)))

mutual
/-- Model of `os.walk(root, topdown=True)` with the in-place pruning of
`exclude_folders`: the current directory's entry, followed by the entries
of each non-excluded subdirectory, depth-first, in order. -/
def osWalk (root : String) : DirTree → List WalkEntry
  | .node files subs => ⟨root, keptNames subs, files⟩ :: osWalkSubs root subs

/-- The recursive descent of `os.walk` into the pruned subdirectory list. -/
def osWalkSubs (root : String) : List SubDir → List WalkEntry
  | [] => []
  | .sub d t :: rest =>
    (if d ∈ exclude_folders then [] else osWalk (pathJoin root d) t) ++ osWalkSubs root rest
end

/-- Code points of `print(f"Contents of {file_path}:")`. -/
def headerOut (path : String) : List Nat :=
  strCP ("Contents of " ++ path ++ ":") ++ [10]

/-- Code points of `print("\n" + "-" * 50 + "\n")`: a blank line, fifty
hyphens, and another blank line. -/
def sepOut : List Nat :=
  [10] ++ List.replicate 50 45 ++ [10, 10]

/-- Modelled from the spec: the `<error description>` text `str(e)` of the
`UnicodeDecodeError`, generated by the runtime and left opaque by the
spec; a fixed newline-free description. -/
def decodeErrMsg : List Nat :=
  strCP "invalid UTF-8 data"

/-- Code points of `print(f"Error reading {file_path}: {e}")`. -/
def errorOut (path : String) : List Nat :=
  strCP ("Error reading " ++ path ++ ": ") ++ decodeErrMsg ++ [10]

/-- The inner `for file in files:` loop over one directory's files,
threading the accumulator `total_lines` and the output so far.  A file is
processed only if `file.endswith(file_extensions)`.  A successful
open/read appends the header, the raw lines and the separator and adds
the line count; a `UnicodeDecodeError` is caught and appends the single
error line; any other OS error is uncaught and aborts the run,
`Except.error` carrying the output printed up to that point. -/
def runFilesLoop (root : String) : List FileEnt → Nat → List Nat → Except (List Nat) (Nat × List Nat)
  | [], acc, out => .ok (acc, out)
  | f :: rest, acc, out =>
    if hasSelectedExt f.name then
      match f.content with
      | .osError => .error out
      | .bytes bs =>
        match utf8Decode bs with
        | some cps =>
          runFilesLoop root rest (acc + (splitLines (univNewlines cps)).length)
            (out ++ headerOut (pathJoin root f.name) ++ (splitLines (univNewlines cps)).flatten ++ sepOut)
        | none => runFilesLoop root rest acc (out ++ errorOut (pathJoin root f.name))
    else runFilesLoop root rest acc out

/-- The outer `for root, dirs, files in os.walk(...)` loop over the walk
entries. -/
def runEntries : List WalkEntry → Nat → List Nat → Except (List Nat) (Nat × List Nat)
  | [], acc, out => .ok (acc, out)
  | e :: rest, acc, out =>
    match runFilesLoop e.root e.files acc out with
    | .error pout => .error pout
    | .ok (acc2, out2) => runEntries rest acc2 out2

/-- The whole scan: both loops run over `os.walk(directory_path)`, with
`total_lines` initialized to `0` and empty output. -/
def runScan (t : DirTree) : Except (List Nat) (Nat × List Nat) :=
  runEntries (osWalk directory_path t) 0 []

/-- The whole program: on normal completion of the scan the summary line
`print(f"Total lines: {total_lines}")` is appended; an uncaught error
aborts with only the output printed so far. -/
def program (t : DirTree) : Except (List Nat) (List Nat) :=
  match runScan t with
  | .ok (total, out) => .ok (out ++ strCP "Total lines: " ++ natCP total ++ [10])
  | .error pout => .error pout

/-! ## Specification-side definitions

These follow the spec's wording (sum of line counts over eligible,
decodable files, excluding everything under an excluded directory) and
are compared with the operational embedding above. -/

/-- Line count contributed by one file's content: the number of lines of
the decoded, newline-translated text; `0` if the bytes are not valid
UTF-8 (the spec excludes such files from the total). -/
def fileCount (c : FContent) : Nat :=
  match c with
  | .osError => 0
  | .bytes bs =>
    match utf8Decode bs with
    | some cps => (splitLines (univNewlines cps)).length
    | none => 0

/-- Sum of the line counts of the eligible files of one directory. -/
def filesTotal : List FileEnt → Nat
  | [] => 0
  | f :: rest => (if hasSelectedExt f.name then fileCount f.content else 0) + filesTotal rest

/-- Output produced for one eligible file on its own. -/
def fileOut (path : String) (c : FContent) : List Nat :=
  match c with
  | .osError => []
  | .bytes bs =>
    match utf8Decode bs with
    | some cps =>
      headerOut path ++ (splitLines (univNewlines cps)).flatten ++ sepOut
    | none => errorOut path

/-- Output produced by the files of one directory. -/
def filesOut (root : String) : List FileEnt → List Nat
  | [] => []
  | f :: rest =>
    (if hasSelectedExt f.name then fileOut (pathJoin root f.name) f.content else [])
      ++ filesOut root rest

/-- Does some eligible file of this directory raise a non-decode OS
error when opened? -/
def filesHaveErr : List FileEnt → Bool
  | [] => false
  | f :: rest => (hasSelectedExt f.name && decide (f.content = FContent.osError)) || filesHaveErr rest

mutual
/-- Spec-side total: sum of line counts of every eligible, decodable file
in the tree, excluding everything under an excluded directory. -/
def specTotal : DirTree → Nat
  | .node files subs => filesTotal files + specTotalSubs subs

/-- Spec-side total over a subdirectory list. -/
def specTotalSubs : List SubDir → Nat
  | [] => 0
  | .sub d t :: rest => (if d ∈ exclude_folders then 0 else specTotal t) + specTotalSubs rest
end

mutual
/-- Spec-side output of a whole (error-free) tree. -/
def specOut (root : String) : DirTree → List Nat
  | .node files subs => filesOut root files ++ specOutSubs root subs

/-- Spec-side output over a subdirectory list. -/
def specOutSubs (root : String) : List SubDir → List Nat
  | [] => []
  | .sub d t :: rest =>
    (if d ∈ exclude_folders then [] else specOut (pathJoin root d) t) ++ specOutSubs root rest
end

mutual
/-- Does the tree hold, outside excluded directories, an eligible file
whose open raises a non-decode OS error? -/
def treeHasErr : DirTree → Bool
  | .node files subs => filesHaveErr files || subsHaveErr subs

/-- Predicate `treeHasErr` over a subdirectory list. -/
def subsHaveErr : List SubDir → Bool
  | [] => false
  | .sub d t :: rest => (!(decide (d ∈ exclude_folders)) && treeHasErr t) || subsHaveErr rest
end

mutual
/-- Remove every excluded subdirectory (with its whole subtree) from the
tree; the traversal never looks inside them, so walking the pruned tree
is the same as walking the original. -/
def pruneTree : DirTree → DirTree
  | .node files subs => .node files (pruneSubs subs)

/-- Function `pruneTree` over a subdirectory list. -/
def pruneSubs : List SubDir → List SubDir
  | [] => []
  | .sub d t :: rest =>
    (if d ∈ exclude_folders then [] else [.sub d (pruneTree t)]) ++ pruneSubs rest
end

/-! ## Helper lemmas -/

theorem splitLinesAux_flatten (cs : List Nat) :
    ∀ acc, (splitLinesAux acc cs).flatten = acc.reverse ++ cs := by
  induction cs with
  | nil =>
    intro acc
    cases acc with
    | nil => simp [splitLinesAux]
    | cons a as => simp [splitLinesAux, List.isEmpty]
  | cons c rest ih =>
    intro acc
    by_cases h : c = 10
    · subst h
      simp [splitLinesAux, ih]
    · simp [splitLinesAux, beq_iff_eq, h, ih]

/-- Concatenating the lines returned by `readlines` gives back exactly the
text that was read: no characters are added or lost by line splitting. -/
theorem splitLines_flatten (cs : List Nat) : (splitLines cs).flatten = cs := by
  simpa using splitLinesAux_flatten cs []

theorem runFilesLoop_ok (root : String) :
    ∀ files : List FileEnt, filesHaveErr files = false →
      ∀ acc out, runFilesLoop root files acc out =
        .ok (acc + filesTotal files, out ++ filesOut root files) := by
  intro files
  induction files with
  | nil => intro _ acc out; simp [runFilesLoop, filesTotal, filesOut]
  | cons f rest ih =>
    intro h acc out
    simp only [filesHaveErr, Bool.or_eq_false_iff] at h
    obtain ⟨h1, h2⟩ := h
    by_cases hsel : hasSelectedExt f.name = true
    · cases hc : f.content with
      | osError => simp [hsel, hc] at h1
      | bytes bs =>
        cases hd : utf8Decode bs with
        | some cps =>
          simp only [runFilesLoop, hsel, if_true, hc, hd]
          rw [ih h2]
          simp [filesTotal, filesOut, fileOut, fileCount, hsel, hc, hd,
            Nat.add_assoc, List.append_assoc]
        | none =>
          simp only [runFilesLoop, hsel, if_true, hc, hd]
          rw [ih h2]
          simp [filesTotal, filesOut, fileOut, fileCount, hsel, hc, hd, List.append_assoc]
    · simp only [runFilesLoop, hsel, if_false]
      rw [ih h2 acc out]
      simp [filesTotal, filesOut, hsel]

theorem runFilesLoop_err (root : String) :
    ∀ files : List FileEnt, filesHaveErr files = true →
      ∀ acc out, ∃ pout, runFilesLoop root files acc out = .error pout := by
  intro files
  induction files with
  | nil => intro h; simp [filesHaveErr] at h
  | cons f rest ih =>
    intro h acc out
    by_cases hsel : hasSelectedExt f.name = true
    · cases hc : f.content with
      | osError => exact ⟨out, by simp [runFilesLoop, hsel, hc]⟩
      | bytes bs =>
        have h2 : filesHaveErr rest = true := by
          simp only [filesHaveErr, hc, hsel, Bool.or_eq_true] at h
          rcases h with h | h
          · simp at h
          · exact h
        cases hd : utf8Decode bs with
        | some cps =>
          obtain ⟨pout, hp⟩ := ih h2 (acc + (splitLines (univNewlines cps)).length)
            (out ++ headerOut (pathJoin root f.name) ++ (splitLines (univNewlines cps)).flatten ++ sepOut)
          exact ⟨pout, by simp only [runFilesLoop, hsel, if_true, hc, hd]; exact hp⟩
        | none =>
          obtain ⟨pout, hp⟩ := ih h2 acc (out ++ errorOut (pathJoin root f.name))
          exact ⟨pout, by simp only [runFilesLoop, hsel, if_true, hc, hd]; exact hp⟩
    · have h2 : filesHaveErr rest = true := by
        simp only [filesHaveErr, hsel, Bool.or_eq_true] at h
        rcases h with h | h
        · simp at h
        · exact h
      obtain ⟨pout, hp⟩ := ih h2 acc out
      exact ⟨pout, by simp only [runFilesLoop, hsel, if_false]; exact hp⟩

theorem runEntries_append_ok :
    ∀ (es1 es2 : List WalkEntry) (acc : Nat) (out : List Nat) (a : Nat) (o : List Nat),
      runEntries es1 acc out = .ok (a, o) →
      runEntries (es1 ++ es2) acc out = runEntries es2 a o := by
  intro es1
  induction es1 with
  | nil =>
    intro es2 acc out a o h
    simp only [runEntries] at h
    obtain ⟨rfl, rfl⟩ := Prod.mk.injEq .. ▸ (Except.ok.inj h)
    simp
  | cons e rest ih =>
    intro es2 acc out a o h
    simp only [List.cons_append, runEntries] at h ⊢
    cases hr : runFilesLoop e.root e.files acc out with
    | error p => rw [hr] at h; simp at h
    | ok r =>
      rw [hr] at h
      obtain ⟨a2, o2⟩ := r
      exact ih es2 a2 o2 a o h

theorem runEntries_append_err :
    ∀ (es1 es2 : List WalkEntry) (acc : Nat) (out : List Nat) (p : List Nat),
      runEntries es1 acc out = .error p →
      runEntries (es1 ++ es2) acc out = .error p := by
  intro es1
  induction es1 with
  | nil => intro es2 acc out p h; simp [runEntries] at h
  | cons e rest ih =>
    intro es2 acc out p h
    simp only [List.cons_append, runEntries] at h ⊢
    cases hr : runFilesLoop e.root e.files acc out with
    | error q => rw [hr] at h; exact h
    | ok r =>
      rw [hr] at h
      obtain ⟨a2, o2⟩ := r
      exact ih es2 a2 o2 p h

mutual

theorem walk_spec : ∀ (t : DirTree) (root : String) (acc : Nat) (out : List Nat),
    (treeHasErr t = false →
      runEntries (osWalk root t) acc out = .ok (acc + specTotal t, out ++ specOut root t)) ∧
    (treeHasErr t = true → ∃ pout, runEntries (osWalk root t) acc out = .error pout)
  | .node files subs, root, acc, out => by
    constructor
    · intro h
      simp only [treeHasErr, Bool.or_eq_false_iff] at h
      obtain ⟨hf, hs⟩ := h
      simp only [osWalk, runEntries]
      rw [runFilesLoop_ok root files hf acc out]
      show runEntries (osWalkSubs root subs) (acc + filesTotal files) (out ++ filesOut root files)
        = Except.ok (acc + specTotal (DirTree.node files subs),
            out ++ specOut root (DirTree.node files subs))
      rw [(walkSubs_spec subs root (acc + filesTotal files) (out ++ filesOut root files)).1 hs]
      simp [specTotal, specOut, Nat.add_assoc, List.append_assoc]
    · intro h
      simp only [osWalk, runEntries]
      by_cases hf : filesHaveErr files = true
      · obtain ⟨pout, hp⟩ := runFilesLoop_err root files hf acc out
        rw [hp]
        exact ⟨pout, rfl⟩
      · have hf' : filesHaveErr files = false := by simpa using hf
        have hs : subsHaveErr subs = true := by
          simp only [treeHasErr, Bool.or_eq_true] at h
          rcases h with h | h
          · exact absurd h hf
          · exact h
        rw [runFilesLoop_ok root files hf' acc out]
        obtain ⟨pout, hp⟩ :=
          (walkSubs_spec subs root (acc + filesTotal files) (out ++ filesOut root files)).2 hs
        exact ⟨pout, hp⟩

theorem walkSubs_spec : ∀ (ss : List SubDir) (root : String) (acc : Nat) (out : List Nat),
    (subsHaveErr ss = false →
      runEntries (osWalkSubs root ss) acc out =
        .ok (acc + specTotalSubs ss, out ++ specOutSubs root ss)) ∧
    (subsHaveErr ss = true → ∃ pout, runEntries (osWalkSubs root ss) acc out = .error pout)
  | [], root, acc, out => by
    constructor
    · intro _; simp [osWalkSubs, runEntries, specTotalSubs, specOutSubs]
    · intro h; simp [subsHaveErr] at h
  | .sub d t :: rest, root, acc, out => by
    by_cases hd : d ∈ exclude_folders
    · constructor
      · intro h
        have hs : subsHaveErr rest = false := by
          simp only [subsHaveErr, hd, Bool.or_eq_false_iff] at h
          exact h.2
        simp only [osWalkSubs, hd, if_true, List.nil_append]
        rw [(walkSubs_spec rest root acc out).1 hs]
        simp [specTotalSubs, specOutSubs, hd]
      · intro h
        have hs : subsHaveErr rest = true := by
          simp only [subsHaveErr, hd, Bool.or_eq_true] at h
          rcases h with h | h
          · simp [hd] at h
          · exact h
        simp only [osWalkSubs, hd, if_true, List.nil_append]
        exact (walkSubs_spec rest root acc out).2 hs
    · constructor
      · intro h
        have h1 : (treeHasErr t = false) ∧ subsHaveErr rest = false := by
          simp only [subsHaveErr, hd, Bool.or_eq_false_iff, Bool.and_eq_false_iff] at h
          obtain ⟨ha, hb⟩ := h
          rcases ha with ha | ha
          · simp [hd] at ha
          · exact ⟨ha, hb⟩
        obtain ⟨ht, hs⟩ := h1
        simp only [osWalkSubs, hd, if_false]
        have hw := (walk_spec t (pathJoin root d) acc out).1 ht
        rw [runEntries_append_ok _ _ _ _ _ _ hw]
        rw [(walkSubs_spec rest root (acc + specTotal t) (out ++ specOut (pathJoin root d) t)).1 hs]
        simp [specTotalSubs, specOutSubs, hd, Nat.add_assoc, List.append_assoc]
      · intro h
        simp only [osWalkSubs, hd, if_false]
        by_cases ht : treeHasErr t = true
        · obtain ⟨pout, hp⟩ := (walk_spec t (pathJoin root d) acc out).2 ht
          exact ⟨pout, runEntries_append_err _ _ _ _ _ hp⟩
        · have ht' : treeHasErr t = false := by simpa using ht
          have hs : subsHaveErr rest = true := by
            simp only [subsHaveErr, hd, ht', Bool.or_eq_true] at h
            rcases h with h | h
            · simp at h
            · exact h
          have hw := (walk_spec t (pathJoin root d) acc out).1 ht'
          obtain ⟨pout, hp⟩ :=
            (walkSubs_spec rest root (acc + specTotal t) (out ++ specOut (pathJoin root d) t)).2 hs
          exact ⟨pout, by rw [runEntries_append_ok _ _ _ _ _ _ hw]; exact hp⟩

end

theorem strCP_append (a b : String) : strCP (a ++ b) = strCP a ++ strCP b := by
  simp [strCP, String.data_append]

theorem keptNames_pruneSubs : ∀ ss : List SubDir, keptNames (pruneSubs ss) = keptNames ss := by
  intro ss
  induction ss with
  | nil => rfl
  | cons s rest ih =>
    obtain ⟨d, t⟩ := s
    by_cases hd : d ∈ exclude_folders
    · simp [pruneSubs, keptNames, subName, hd, ih, keptNames] at ih ⊢
      simpa [keptNames] using ih
    · simp only [pruneSubs, hd, if_false, List.singleton_append, keptNames, List.map_cons,
        List.filter_cons, subName] at ih ⊢
      simp [hd, ih]

mutual

theorem prune_osWalk : ∀ (t : DirTree) (root : String),
    osWalk root (pruneTree t) = osWalk root t
  | .node files subs, root => by
    simp only [pruneTree, osWalk]
    rw [keptNames_pruneSubs subs, prune_osWalkSubs subs root]

theorem prune_osWalkSubs : ∀ (ss : List SubDir) (root : String),
    osWalkSubs root (pruneSubs ss) = osWalkSubs root ss
  | [], root => rfl
  | .sub d t :: rest, root => by
    by_cases hd : d ∈ exclude_folders
    · simp only [pruneSubs, hd, if_true, List.nil_append]
      rw [prune_osWalkSubs rest root]
      simp [osWalkSubs, hd]
    · simp only [pruneSubs, hd, if_false, List.singleton_append, osWalkSubs]
      rw [prune_osWalk t (pathJoin root d), prune_osWalkSubs rest root]

end

theorem program_prune (t : DirTree) : program (pruneTree t) = program t := by
  simp [program, runScan, prune_osWalk]

theorem runScan_ok (t : DirTree) (h : treeHasErr t = false) :
    runScan t = .ok (specTotal t, specOut directory_path t) := by
  simpa [runScan] using (walk_spec t directory_path 0 []).1 h

theorem runScan_err (t : DirTree) (h : treeHasErr t = true) :
    ∃ pout, runScan t = .error pout := by
  simpa [runScan] using (walk_spec t directory_path 0 []).2 h

theorem runScan_noErr (t : DirTree) (r : Nat × List Nat) (h : runScan t = .ok r) :
    treeHasErr t = false := by
  by_cases hb : treeHasErr t = true
  · obtain ⟨p, hp⟩ := runScan_err t hb
    rw [hp] at h
    cases h
  · simpa using hb

theorem runFilesLoop_mono (root : String) :
    ∀ (files : List FileEnt) (acc : Nat) (out : List Nat) (r : Nat × List Nat),
      runFilesLoop root files acc out = .ok r → acc ≤ r.1 := by
  intro files
  induction files with
  | nil =>
    intro acc out r h
    simp only [runFilesLoop] at h
    cases h
    exact Nat.le_refl _
  | cons f rest ih =>
    intro acc out r h
    by_cases hsel : hasSelectedExt f.name = true
    · cases hc : f.content with
      | osError =>
        simp only [runFilesLoop, hsel, if_true, hc] at h
        cases h
      | bytes bs =>
        cases hd : utf8Decode bs with
        | some cps =>
          simp only [runFilesLoop, hsel, if_true, hc, hd] at h
          exact Nat.le_trans (Nat.le_add_right _ _) (ih _ _ _ h)
        | none =>
          simp only [runFilesLoop, hsel, if_true, hc, hd] at h
          exact ih _ _ _ h
    · simp only [runFilesLoop, hsel, if_false] at h
      exact ih _ _ _ h

theorem runEntries_mono :
    ∀ (es : List WalkEntry) (acc : Nat) (out : List Nat) (r : Nat × List Nat),
      runEntries es acc out = .ok r → acc ≤ r.1 := by
  intro es
  induction es with
  | nil =>
    intro acc out r h
    simp only [runEntries] at h
    cases h
    exact Nat.le_refl _
  | cons e rest ih =>
    intro acc out r h
    simp only [runEntries] at h
    cases hr : runFilesLoop e.root e.files acc out with
    | error p => rw [hr] at h; cases h
    | ok r2 =>
      rw [hr] at h
      obtain ⟨a2, o2⟩ := r2
      exact Nat.le_trans (runFilesLoop_mono e.root e.files acc out (a2, o2) hr) (ih _ _ _ h)

/-! ## Example trees used in concrete instantiations -/

/-- A mixed tree: one eligible decodable file (2 lines), one eligible file
with invalid UTF-8 bytes, one ineligible file, and a `node_modules`
subtree; its total is 2. -/
def exGood : DirTree :=
  .node [⟨"a.py", .bytes (strCP "x\ny\n")⟩,
         ⟨"bad.py", .bytes [255]⟩,
         ⟨"readme.md", .bytes (strCP "hi\n")⟩]
    [.sub "node_modules" (.node [⟨"c.js", .bytes (strCP "1\n2\n3\n")⟩] [])]

/-- A tree whose second eligible file raises a non-decode OS error. -/
def exErr : DirTree :=
  .node [⟨"a.py", .bytes (strCP "x\n")⟩, ⟨"locked.py", .osError⟩] []

/-- A tree with a file at `node_modules/sub/deep/app.js`, used to show the
excluded subtree is never enumerated. -/
def exDeep : DirTree :=
  .node [⟨"app.py", .bytes (strCP "x\n")⟩]
    [.sub "node_modules"
       (.node [] [.sub "sub" (.node [] [.sub "deep" (.node [⟨"app.js", .bytes (strCP "zzz\n")⟩] [])])]),
     .sub "src" (.node [⟨"b.js", .bytes (strCP "1\n2\n")⟩] [])]

/-! ## The claims -/

/-- Claim C1: on every run that completes, the printed `Total lines: <N>`
value `N` equals the sum of the line counts (universal-newline splitting)
of every file whose name ends with one of `.js`, `.html`, `.css`, `.py`,
excluding files under any `node_modules` directory at any depth and
files whose bytes fail UTF-8 decoding; and the program's output is the
scan's output followed by the summary line. -/
theorem c1_total_lines (t : DirTree) :
    ∀ (total : Nat) (out : List Nat), runScan t = Except.ok (total, out) →
      total = specTotal t ∧
      program t = Except.ok (out ++ strCP "Total lines: " ++ natCP total ++ [10]) := by
  intro total out h
  have hf : treeHasErr t = false := runScan_noErr t (total, out) h
  have hs := runScan_ok t hf
  rw [hs] at h
  have h2 := Except.ok.inj h
  have htot : specTotal t = total := congrArg Prod.fst h2
  have hout : specOut directory_path t = out := congrArg Prod.snd h2
  refine ⟨htot.symm, ?_⟩
  simp [program, hs, htot, hout]

/-- Witness for C1 at the concrete tree `exGood`: the summary value is 2
(only `a.py` counts: `bad.py` fails decoding, `readme.md` is ineligible,
`node_modules/c.js` is excluded). -/
theorem c1_total_lines_witness :
    (2 : Nat) = specTotal exGood ∧
    program exGood =
      Except.ok (specOut directory_path exGood ++ strCP "Total lines: " ++ natCP 2 ++ [10]) :=
  c1_total_lines exGood 2 (specOut directory_path exGood) (by rfl)

/-- Claim C2: every directory named `node_modules` is pruned before descent:
walking a tree is identical to walking the tree with every excluded
subtree deleted (so nothing beneath one is ever enumerated, opened,
printed, or counted, and the whole program's behaviour is unchanged);
concretely, with a file at `node_modules/sub/deep/app.js` the walk
enumerates only `./` and `./src`, the pruned name list of `./` omits
`node_modules`, and neither `node_modules` nor `node_modules/sub` is
ever enumerated. -/
theorem c2_node_modules_pruned :
    (∀ (root : String) (t : DirTree), osWalk root (pruneTree t) = osWalk root t) ∧
    (∀ t : DirTree, program (pruneTree t) = program t) ∧
    osWalk directory_path exDeep =
      [⟨"./", ["src"], [⟨"app.py", .bytes (strCP "x\n")⟩]⟩,
       ⟨"./src", [], [⟨"b.js", .bytes (strCP "1\n2\n")⟩]⟩] :=
  ⟨fun root t => prune_osWalk t root, program_prune, by rfl⟩

/-- Claim C3: a file name is selected iff it ends, case-sensitively, with one
of the exact suffixes `.js`, `.html`, `.css`, `.py`; in particular
`script.pyx` is not selected, `.py` (no base name) is selected, and
`README` is not selected. -/
theorem c3_suffix_selection :
    (∀ name : String,
      hasSelectedExt name = true ↔ ∃ e ∈ file_extensions, e.data <:+ name.data) ∧
    hasSelectedExt "script.pyx" = false ∧
    hasSelectedExt ".py" = true ∧
    hasSelectedExt "README" = false := by
  refine ⟨?_, by decide, by decide, by decide⟩
  intro name
  simp [hasSelectedExt, endswith, List.any_eq_true]

/-- Claim C4: an eligible file whose bytes are not valid UTF-8 does not abort
the run: the loop appends exactly the single error line
`Error reading <file_path>: <error description>`, leaves the accumulator
unchanged, and continues with the remaining files; the error description
holds no newline. -/
theorem c4_decode_failure_recovery (root : String) (f : FileEnt) (rest : List FileEnt)
    (acc : Nat) (out : List Nat) (bs : List Nat)
    (hb : f.content = FContent.bytes bs) (hd : utf8Decode bs = none)
    (hs : hasSelectedExt f.name = true) :
    runFilesLoop root (f :: rest) acc out
      = runFilesLoop root rest acc (out ++ errorOut (pathJoin root f.name)) ∧
    errorOut (pathJoin root f.name)
      = strCP ("Error reading " ++ pathJoin root f.name ++ ": ") ++ decodeErrMsg ++ [10] ∧
    decodeErrMsg.count 10 = 0 := by
  refine ⟨?_, rfl, by decide⟩
  simp [runFilesLoop, hs, hb, hd]

/-- Witness for C4 at a concrete invalid-UTF-8 file `bad.py` (single byte
`0xFF`). -/
theorem c4_decode_failure_recovery_witness :
    runFilesLoop "./" [⟨"bad.py", .bytes [255]⟩, ⟨"a.py", .bytes (strCP "x\n")⟩] 0 []
      = runFilesLoop "./" [⟨"a.py", .bytes (strCP "x\n")⟩] 0
          ([] ++ errorOut (pathJoin "./" "bad.py")) ∧
    errorOut (pathJoin "./" "bad.py")
      = strCP ("Error reading " ++ pathJoin "./" "bad.py" ++ ": ") ++ decodeErrMsg ++ [10] ∧
    decodeErrMsg.count 10 = 0 :=
  c4_decode_failure_recovery "./" ⟨"bad.py", .bytes [255]⟩ [⟨"a.py", .bytes (strCP "x\n")⟩]
    0 [] [255] rfl (by rfl) (by rfl)

/-- Claim C5: only `UnicodeDecodeError` is caught: the scan completes
normally iff no reachable eligible file raises a non-decode error, and
when the scan aborts the program emits only the partial output — the
`Total lines:` summary line is never appended, being reached only on
normal completion. -/
theorem c5_fatal_on_other_errors (t : DirTree) :
    ((∃ r, runScan t = Except.ok r) ↔ treeHasErr t = false) ∧
    (∀ pout, runScan t = Except.error pout → program t = Except.error pout) := by
  constructor
  · constructor
    · rintro ⟨r, hr⟩
      exact runScan_noErr t r hr
    · intro h
      exact ⟨_, runScan_ok t h⟩
  · intro pout h
    simp [program, h]

/-- Witness for C5 at the concrete tree `exErr` (whose `locked.py` raises
a non-decode OS error): the run aborts with only the output printed
before the failure, and no `Total lines:` line. -/
theorem c5_fatal_on_other_errors_witness :
    program exErr = Except.error (headerOut "./a.py" ++ strCP "x\n" ++ sepOut) ∧
    treeHasErr exErr = true :=
  ⟨(c5_fatal_on_other_errors exErr).2 (headerOut "./a.py" ++ strCP "x\n" ++ sepOut) (by rfl),
   by rfl⟩

/-- Claim C6: an eligible file that opens and decodes successfully emits, in
order, the header `Contents of <file_path>:`, each line verbatim (their
concatenation is exactly the decoded, newline-translated text — no extra
newline is added after a line already ending in one), and the separator
(blank line, 50 hyphens, blank line); the accumulator grows by the number
of lines read. -/
theorem c6_success_output (root : String) (f : FileEnt) (rest : List FileEnt)
    (acc : Nat) (out : List Nat) (bs cps : List Nat)
    (hb : f.content = FContent.bytes bs) (hdec : utf8Decode bs = some cps)
    (hs : hasSelectedExt f.name = true) :
    runFilesLoop root (f :: rest) acc out
      = runFilesLoop root rest (acc + (splitLines (univNewlines cps)).length)
          (out ++ headerOut (pathJoin root f.name)
            ++ (splitLines (univNewlines cps)).flatten ++ sepOut) ∧
    (splitLines (univNewlines cps)).flatten = univNewlines cps ∧
    headerOut (pathJoin root f.name)
      = strCP ("Contents of " ++ pathJoin root f.name ++ ":") ++ [10] ∧
    sepOut = [10] ++ List.replicate 50 45 ++ [10, 10] := by
  refine ⟨?_, splitLines_flatten _, rfl, rfl⟩
  simp [runFilesLoop, hs, hb, hdec]

/-- Witness for C6 at a concrete two-line file `a.py` whose last line has
no trailing newline. -/
theorem c6_success_output_witness :
    runFilesLoop "./" [⟨"a.py", .bytes (strCP "x\ny")⟩] 3 []
      = runFilesLoop "./" [] (3 + (splitLines (univNewlines [120, 10, 121])).length)
          ([] ++ headerOut (pathJoin "./" "a.py")
            ++ (splitLines (univNewlines [120, 10, 121])).flatten ++ sepOut) ∧
    (splitLines (univNewlines [120, 10, 121])).flatten = univNewlines [120, 10, 121] ∧
    headerOut (pathJoin "./" "a.py")
      = strCP ("Contents of " ++ pathJoin "./" "a.py" ++ ":") ++ [10] ∧
    sepOut = [10] ++ List.replicate 50 45 ++ [10, 10] :=
  c6_success_output "./" ⟨"a.py", .bytes (strCP "x\ny")⟩ [] 3 [] (strCP "x\ny")
    [120, 10, 121] rfl (by rfl) (by rfl)

/-- Claim C7: the accumulator starts at 0 (the scan is the loop started at
accumulator 0 with empty output) and is monotonically non-decreasing:
whenever the loop runs to completion from accumulator `acc`, the
resulting accumulator is at least `acc` (each update only adds the
non-negative line count of a successfully decoded eligible file, and
nothing ever decrements it). -/
theorem c7_accumulator_monotone :
    (∀ (root : String) (files : List FileEnt) (acc : Nat) (out : List Nat) (r : Nat × List Nat),
      runFilesLoop root files acc out = Except.ok r → acc ≤ r.1) ∧
    (∀ (es : List WalkEntry) (acc : Nat) (out : List Nat) (r : Nat × List Nat),
      runEntries es acc out = Except.ok r → acc ≤ r.1) ∧
    (∀ t : DirTree, runScan t = runEntries (osWalk directory_path t) 0 []) :=
  ⟨runFilesLoop_mono, runEntries_mono, fun _ => rfl⟩

/-- Witness for C7: a concrete one-file loop run from accumulator 0 ends
at 1, and 0 ≤ 1. -/
theorem c7_accumulator_monotone_witness :
    runFilesLoop "./" [⟨"a.py", .bytes (strCP "x\n")⟩] 0 []
      = Except.ok (1, headerOut "./a.py" ++ strCP "x\n" ++ sepOut) ∧ (0 : Nat) ≤ 1 :=
  ⟨by rfl,
   c7_accumulator_monotone.1 "./" [⟨"a.py", .bytes (strCP "x\n")⟩] 0 []
     (1, headerOut "./a.py" ++ strCP "x\n" ++ sepOut) (by rfl)⟩

/-- Claim C8: the program consults nothing but the tree: its output is a
function of the tree alone, so two runs over an unchanged tree with the
same enumeration order produce identical standard output and the same
final total. -/
theorem c8_deterministic (t : DirTree) :
    (∀ o1 o2 : List Nat, program t = Except.ok o1 → program t = Except.ok o2 → o1 = o2) ∧
    (∀ r1 r2 : Nat × List Nat, runScan t = Except.ok r1 → runScan t = Except.ok r2 → r1 = r2) := by
  constructor
  · intro o1 o2 h1 h2
    rw [h1] at h2
    exact Except.ok.inj h2
  · intro r1 r2 h1 h2
    rw [h1] at h2
    exact Except.ok.inj h2

/-- Witness for C8 at the concrete tree `exGood`: both runs yield the same
byte output. -/
theorem c8_deterministic_witness :
    (specOut directory_path exGood ++ strCP "Total lines: " ++ natCP 2 ++ [10])
      = specOut directory_path exGood ++ strCP "Total lines: " ++ natCP 2 ++ [10] :=
  (c8_deterministic exGood).1 _ _ (by rfl) (by rfl)

/-- Claim C9: an eligible empty file still prints the `Contents of` header
immediately followed by the separator, with no content lines in between,
and leaves the accumulator unchanged. -/
theorem c9_empty_file (root : String) (f : FileEnt) (rest : List FileEnt)
    (acc : Nat) (out : List Nat)
    (hb : f.content = FContent.bytes []) (hs : hasSelectedExt f.name = true) :
    runFilesLoop root (f :: rest) acc out
      = runFilesLoop root rest acc (out ++ headerOut (pathJoin root f.name) ++ sepOut) := by
  have hdec : utf8Decode [] = some [] := rfl
  simp [runFilesLoop, hs, hb, hdec, univNewlines, splitLines, splitLinesAux]

/-- Witness for C9 at a concrete empty file named `.py`. -/
theorem c9_empty_file_witness :
    runFilesLoop "./" [⟨".py", .bytes []⟩] 7 []
      = runFilesLoop "./" [] 7 ([] ++ headerOut (pathJoin "./" ".py") ++ sepOut) :=
  c9_empty_file "./" ⟨".py", .bytes []⟩ [] 7 [] rfl (by rfl)

/-- Claim C10: when an eligible file fails UTF-8 decoding, the only output
for that file is the single error line: it contains exactly one newline
beyond those in the path, and it does not begin with the `Contents of `
header (so no header, no partial contents, and no separator are
printed). -/
theorem c10_decode_failure_isolation (root : String) (f : FileEnt) (rest : List FileEnt)
    (acc : Nat) (out : List Nat) (bs : List Nat)
    (hb : f.content = FContent.bytes bs) (hd : utf8Decode bs = none)
    (hs : hasSelectedExt f.name = true) :
    runFilesLoop root (f :: rest) acc out
      = runFilesLoop root rest acc (out ++ errorOut (pathJoin root f.name)) ∧
    (errorOut (pathJoin root f.name)).count 10
      = (strCP (pathJoin root f.name)).count 10 + 1 ∧
    (∀ q : List Nat, errorOut (pathJoin root f.name) ≠ strCP "Contents of " ++ q) := by
  refine ⟨?_, ?_, ?_⟩
  · simp [runFilesLoop, hs, hb, hd]
  · have e1 : (strCP "Error reading ").count 10 = 0 := by decide
    have e2 : (strCP ": ").count 10 = 0 := by decide
    have e3 : decodeErrMsg.count 10 = 0 := by decide
    simp [errorOut, strCP_append, List.count_append, e1, e2, e3]
  · intro q h
    have hE : strCP "Error reading " = 69 :: strCP "rror reading " := by decide
    have hC : strCP "Contents of " = 67 :: strCP "ontents of " := by decide
    simp [errorOut, strCP_append, hE, hC] at h

/-- Witness for C10 at a concrete invalid-UTF-8 file `broken.css` (bytes
`0xC0 0x80`, an overlong encoding). -/
theorem c10_decode_failure_isolation_witness :
    runFilesLoop "./" [⟨"broken.css", .bytes [192, 128]⟩] 4 []
      = runFilesLoop "./" [] 4 ([] ++ errorOut (pathJoin "./" "broken.css")) ∧
    (errorOut (pathJoin "./" "broken.css")).count 10
      = (strCP (pathJoin "./" "broken.css")).count 10 + 1 ∧
    (∀ q : List Nat, errorOut (pathJoin "./" "broken.css") ≠ strCP "Contents of " ++ q) :=
  c10_decode_failure_isolation "./" ⟨"broken.css", .bytes [192, 128]⟩ [] 4 [] [192, 128]
    rfl (by rfl) (by rfl)
